import Mathlib

/-!
Shallow embedding of the OpenPipe node-processing / completion-retry core.

Part 1 embeds the completion retry engine
(`src/src/server/tasks/queryModel.task.ts`): the `queryModel` task is
modelled as a pure function from its environment (the cell looked up by id,
whether the prompt variant and test scenario exist, the result of prompt
construction, and the provider's response to each attempt) to the trace of
observable steps it performs (cell updates, provider calls, model-output
creation, sleeps).

Part 2 embeds cache propagation (`updateCached`, `src/unnamed/part_000`)
and the LLMRelabel node strategy
(`src/app/src/server/utils/nodes/nodeProperties/llmRelabelProperties.ts`).
-/

namespace OpenPipe

/-- The `ScenarioVariantCell.retrievalStatus` values. -/
inductive RetrievalStatus
  | PENDING
  | IN_PROGRESS
  | COMPLETE
  | ERROR
deriving DecidableEq, Repr

/-- The fields of a `ScenarioVariantCell` that `queryModel` reads or writes.
`retryTime` is a nullable timestamp (milliseconds, modelled as ℚ). -/
structure Cell where
  retrievalStatus : RetrievalStatus
  statusCode : Option Int
  errorMessage : Option String
  retryTime : Option ℚ
deriving DecidableEq, Repr

/-- One `prisma.scenarioVariantCell.update` data object: each field is
`none` when the update does not mention it (Prisma leaves it unchanged).
`retryTime := some none` models setting the column to SQL `null`. -/
structure CellUpdate where
  retrievalStatus : Option RetrievalStatus := none
  statusCode : Option Int := none
  errorMessage : Option String := none
  retryTime : Option (Option ℚ) := none
deriving DecidableEq, Repr

/-- Apply an update object to a cell: mentioned fields are overwritten,
unmentioned fields keep their value. -/
def applyUpdate (c : Cell) (u : CellUpdate) : Cell where
  retrievalStatus := u.retrievalStatus.getD c.retrievalStatus
  statusCode := (u.statusCode.map some).getD c.statusCode
  errorMessage := (u.errorMessage.map some).getD c.errorMessage
  retryTime := u.retryTime.getD c.retryTime

/-- The model provider's answer to one `getCompletion` call
(`{type: success, ...} | {type: error, message, statusCode, autoRetry}`). -/
inductive ProviderResponse
  | success (statusCode : Int)
  | failure (message : String) (statusCode : Int) (autoRetry : Bool)
deriving DecidableEq, Repr

/-- Observable steps of one `queryModel` run, in order. -/
inductive Step
  | updateCell (u : CellUpdate)
  | callProvider (i : Nat)
  | createModelOutput
  | sleepFor (delay : ℚ)
deriving DecidableEq, Repr

def MAX_AUTO_RETRIES : Nat := 10
def MIN_DELAY : ℚ := 500
def MAX_DELAY : ℚ := 15000

/-- The `calculateDelay` helper of queryModel.task.ts; `rand` is the `Math.random()`
sample in `[0, 1)` drawn for the jitter. -/
def calculateDelay (rand : ℚ) (numPreviousTries : Nat) : ℚ :=
  let baseDelay := min MAX_DELAY (MIN_DELAY * 2 ^ numPreviousTries)
  let jitter := rand * baseDelay
  baseDelay + jitter

/-- Environment of one `queryModel` run: everything the task reads.
`resp i` is the provider's response to attempt `i`; `rand i` the jitter
sample and `now i` the value of `Date.now()` during attempt `i`'s failure
handling. `promptError = some e` models `parseConstructFn` returning
`{error: e}`. -/
structure TaskEnv where
  cell : Option Cell
  variantFound : Bool
  scenarioFound : Bool
  promptError : Option String
  resp : Nat → ProviderResponse
  rand : Nat → ℚ
  now : Nat → ℚ

/-- The `for (let i = 0; true; i++)` retry loop of `queryModel`.  The source
loop re-enters only when `shouldRetry = response.autoRetry && i <
MAX_AUTO_RETRIES` holds, so from attempt `i` at most `MAX_AUTO_RETRIES + 1 -
i` iterations remain; `fuel` is that bound, so the `fuel = 0` case is
unreachable from the top-level call (see `queryLoopF_fuel_stable`). -/
def queryLoopF (env : TaskEnv) : Nat → Nat → List Step
  | 0, _ => []
  | fuel + 1, i =>
    match env.resp i with
    | .success sc =>
      [Step.callProvider i, Step.createModelOutput,
       Step.updateCell { statusCode := some sc, retrievalStatus := some .COMPLETE }]
    | .failure msg sc autoRetry =>
      let shouldRetry := autoRetry && decide (i < MAX_AUTO_RETRIES)
      let delay := calculateDelay (env.rand i) i
      let upd : CellUpdate :=
        { errorMessage := some msg
          statusCode := some sc
          retryTime := some (if shouldRetry then some (env.now i + delay) else none)
          retrievalStatus := some .ERROR }
      if shouldRetry then
        Step.callProvider i :: Step.updateCell upd :: Step.sleepFor delay ::
          queryLoopF env fuel (i + 1)
      else
        [Step.callProvider i, Step.updateCell upd]

/-- The `queryModel` task body as a trace of observable steps. -/
def queryModel (env : TaskEnv) : List Step :=
  match env.cell with
  | none =>
    [Step.updateCell { statusCode := some 404, errorMessage := some "Cell not found",
                       retrievalStatus := some .ERROR }]
  | some cell =>
    if cell.retrievalStatus ≠ .PENDING then []
    else
      Step.updateCell { retrievalStatus := some .IN_PROGRESS } ::
      (if env.variantFound = false then
        [Step.updateCell { statusCode := some 404,
                           errorMessage := some "Prompt Variant not found",
                           retrievalStatus := some .ERROR }]
      else if env.scenarioFound = false then
        [Step.updateCell { statusCode := some 404, errorMessage := some "Scenario not found",
                           retrievalStatus := some .ERROR }]
      else
        match env.promptError with
        | some e =>
          [Step.updateCell { statusCode := some 400, errorMessage := some e,
                             retrievalStatus := some .ERROR }]
        | none => queryLoopF env (MAX_AUTO_RETRIES + 1) 0)

/-- Run the cell through every update of a trace. -/
def runUpdates (c : Cell) (steps : List Step) : Cell :=
  steps.foldl (fun acc s =>
    match s with
    | .updateCell u => applyUpdate acc u
    | _ => acc) c

def isProviderCall : Step → Bool
  | .callProvider _ => true
  | _ => false

/-- Number of `provider.getCompletion` calls in a trace. -/
def providerCalls (steps : List Step) : Nat :=
  steps.countP isProviderCall

/-- Does this step write `retrievalStatus := PENDING`? -/
def setsPending : Step → Bool
  | .updateCell u => u.retrievalStatus == some RetrievalStatus.PENDING
  | _ => false

/-- Does this step's update mention the `retryTime` column at all? -/
def touchesRetryTime : Step → Bool
  | .updateCell u => u.retryTime.isSome
  | _ => false

/-- Does this step write `retrievalStatus := IN_PROGRESS`? -/
def setsInProgress : Step → Bool
  | .updateCell u => u.retrievalStatus == some RetrievalStatus.IN_PROGRESS
  | _ => false

/-! ### Part 2: cache propagation (`updateCached`) and the LLMRelabel node -/

/-- The `NodeEntry.status` values. -/
inductive NodeEntryStatus
  | PENDING
  | PROCESSING
  | PROCESSED
  | ERROR
deriving DecidableEq, Repr, Inhabited

inductive Split
  | TRAIN
  | TEST
deriving DecidableEq, Repr, Inhabited

/-- The columns of `NodeEntry` read or written by `updateCached` and the
LLMRelabel hooks. -/
structure NodeEntry where
  nodeId : String
  persistentId : String
  status : NodeEntryStatus
  inputHash : String
  outputHash : String
  originalOutputHash : Option String
  split : Split
deriving DecidableEq, Repr, Inhabited

/-- The columns of `CachedProcessedEntry` used by `updateCached`. -/
structure CachedProcessedEntry where
  nodeHash : String
  nodeId : String
  nodeEntryPersistentId : String
  incomingInputHash : String
  incomingOutputHash : String
  outgoingInputHash : String
  outgoingOutputHash : String
  outgoingSplit : Split
deriving DecidableEq, Repr

/-- The cache-match field names a node kind may declare. -/
inductive CacheMatchField
  | nodeEntryPersistentId
  | incomingInputHash
  | incomingOutputHash
deriving DecidableEq, Repr

/-- The cache-write field names a node kind may declare. -/
inductive CacheWriteField
  | outgoingInputHash
  | outgoingOutputHash
  | outgoingSplit
deriving DecidableEq, Repr

/-- The cache-relevant part of a `NodeProperties` record; `none` models a
kind that does not declare the field. -/
structure NodeCacheProps where
  cacheMatchFields : Option (List CacheMatchField)
  cacheWriteFields : Option (List CacheWriteField)
deriving DecidableEq, Repr

/-- The `id` and `hash` of the node passed to `updateCached`. -/
structure NodeRec where
  id : String
  hash : String
deriving DecidableEq, Repr

/-- The two tables `updateCached` touches. -/
structure DbState where
  nodeEntries : List NodeEntry
  cachedProcessedEntries : List CachedProcessedEntry
deriving DecidableEq, Repr

/-- The WHERE clause of `updateCached`'s bulk update, per cached record:
keyed by this node's hash OR its id, plus one equality per declared
cache-match field. -/
def cacheMatches (mf : List CacheMatchField) (node : NodeRec) (ne : NodeEntry)
    (cpne : CachedProcessedEntry) : Bool :=
  (cpne.nodeHash == node.hash || cpne.nodeId == node.id) &&
  (!(mf.contains .nodeEntryPersistentId) || ne.persistentId == cpne.nodeEntryPersistentId) &&
  (!(mf.contains .incomingInputHash) || ne.inputHash == cpne.incomingInputHash) &&
  (!(mf.contains .incomingOutputHash) || ne.outputHash == cpne.incomingOutputHash)

/-- The SET clause of `updateCached`'s bulk update applied to one matched
row: always `status := PROCESSED`, plus one assignment per declared
cache-write field (writing `outgoingOutputHash` also preserves the old
output hash in `originalOutputHash`). -/
def applyCacheWrite (wf : List CacheWriteField) (ne : NodeEntry)
    (cpne : CachedProcessedEntry) : NodeEntry :=
  let ne1 := { ne with status := NodeEntryStatus.PROCESSED }
  let ne2 := if wf.contains .outgoingInputHash then
    { ne1 with inputHash := cpne.outgoingInputHash } else ne1
  let ne3 := if wf.contains .outgoingOutputHash then
    { ne2 with outputHash := cpne.outgoingOutputHash,
               originalOutputHash := some ne.outputHash } else ne2
  if wf.contains .outgoingSplit then { ne3 with split := cpne.outgoingSplit } else ne3

/-- The `updateCached` operation of `src/unnamed/part_000`: when the node kind declares
both cache-match and cache-write fields, bulk-rewrite every PENDING entry of
this node that joins with some cached record; otherwise do nothing. -/
def updateCached (props : NodeCacheProps) (node : NodeRec) (db : DbState) : DbState :=
  match props.cacheMatchFields, props.cacheWriteFields with
  | some mf, some wf =>
    { db with nodeEntries := db.nodeEntries.map (fun ne =>
        if ne.nodeId == node.id && ne.status == NodeEntryStatus.PENDING then
          match db.cachedProcessedEntries.find? (cacheMatches mf node ne) with
          | some cpne => applyCacheWrite wf ne cpne
          | none => ne
        else ne) }
  | _, _ => db

/-- The cache declaration of `llmRelabelProperties`:
`cacheMatchFields: ["incomingInputHash"], cacheWriteFields: ["outgoingOutputHash"]`. -/
def llmRelabelCacheProps : NodeCacheProps where
  cacheMatchFields := some [.incomingInputHash]
  cacheWriteFields := some [.outgoingOutputHash]

/-! ### Part 3: the LLMRelabel hooks `beforeProcessing` and `processEntry` -/

/-- The `relabelLLM` options of an LLMRelabel node's config.  Modelled from
the spec: the `RelabelOption` enum itself (`node.types.ts`) is not among
the shown sources; only the distinction between the skip-relabel option and
a concrete relabelling model matters to the shown code. -/
inductive RelabelOption
  | SkipRelabel
  | LLM (model : String)
deriving DecidableEq, Repr

/-- The fields of an LLMRelabel node used by its hooks. -/
structure LLMRelabelNode where
  id : String
  projectId : String
  relabelLLM : RelabelOption
  maxLLMConcurrency : Nat
deriving DecidableEq, Repr

/-- The `beforeProcessing` hook of `llmRelabelProperties`, as a transformation of the
`NodeEntry` table: when `relabelLLM` is the skip option, the
`updateMany({nodeId, status: PENDING} -> {status: PROCESSED})` bulk write;
otherwise no write at all.  It never references `processEntry`. -/
def beforeProcessing (node : LLMRelabelNode) (entries : List NodeEntry) : List NodeEntry :=
  if node.relabelLLM = RelabelOption.SkipRelabel then
    entries.map (fun ne =>
      if ne.nodeId == node.id && ne.status == NodeEntryStatus.PENDING then
        { ne with status := NodeEntryStatus.PROCESSED }
      else ne)
  else entries

/-- An exception thrown inside `processEntry`'s try block: whether it is an
OpenAI `APIError`, its HTTP status (when it has one), and its message. -/
structure ThrownError where
  isAPIError : Bool
  status : Option Int
  message : String
deriving DecidableEq, Repr

/-- Outcome of the `getOpenaiCompletion` call: a completion whose
`choices[0]?.message` may be absent, or a thrown error. -/
inductive CompletionOutcome
  | ok (message : Option String)
  | thrown (e : ThrownError)
deriving DecidableEq, Repr

/-- The `{status, output} | {status, error}` value `processEntry` returns. -/
inductive ProcessResult
  | processed (output : String)
  | pending (error : String)
  | error (error : String)
deriving DecidableEq, Repr

/-- The `processEntry` transform of `llmRelabelProperties`.  `entryOutput` is
`entry.output`; `call` is the outcome of the `getOpenaiCompletion` call
made when the node does not skip relabelling.  A missing
`choices[0]?.message` throws `"No completion returned"`, caught by the
same catch; an `APIError` with status 429 yields PENDING, any other caught
error yields ERROR. -/
def processEntry (node : LLMRelabelNode) (entryOutput : String)
    (call : CompletionOutcome) : ProcessResult :=
  if node.relabelLLM = RelabelOption.SkipRelabel then
    ProcessResult.processed entryOutput
  else
    match call with
    | .ok (some m) => ProcessResult.processed m
    | .ok none => ProcessResult.error "No completion returned"
    | .thrown e =>
      if e.isAPIError && e.status == some 429 then
        ProcessResult.pending e.message
      else
        ProcessResult.error e.message

/-! ### Concrete inputs used to instantiate the theorems -/

def cellPending : Cell where
  retrievalStatus := .PENDING
  statusCode := none
  errorMessage := none
  retryTime := none

def cellComplete : Cell where
  retrievalStatus := .COMPLETE
  statusCode := some 200
  errorMessage := none
  retryTime := none

/-- A PENDING cell still carrying the retry bookkeeping of an earlier
retryable failure. -/
def cellStale : Cell where
  retrievalStatus := .PENDING
  statusCode := some 429
  errorMessage := some "Rate limited"
  retryTime := some 12345

/-- Happy-path environment around a given cell and provider behaviour. -/
def baseEnv (c : Cell) (resp : Nat → ProviderResponse) : TaskEnv where
  cell := some c
  variantFound := true
  scenarioFound := true
  promptError := none
  resp := resp
  rand := fun _ => 0
  now := fun _ => 0

def envAllFail : TaskEnv :=
  baseEnv cellPending (fun _ => .failure "Rate limited" 429 true)

def envTermFail : TaskEnv :=
  baseEnv cellPending (fun _ => .failure "Internal error" 500 false)

def envOneFail : TaskEnv :=
  baseEnv cellPending (fun i => if i = 0 then .failure "Rate limited" 429 true else .success 200)

def envNotPending : TaskEnv :=
  baseEnv cellComplete (fun _ => .success 200)

def envVariantMissing : TaskEnv :=
  { baseEnv cellStale (fun _ => .success 200) with variantFound := false }

def nodeW : NodeRec where
  id := "node-1"
  hash := "hash-A"

def entryW : NodeEntry where
  nodeId := "node-1"
  persistentId := "p-1"
  status := .PENDING
  inputHash := "in-1"
  outputHash := "out-old"
  originalOutputHash := none
  split := .TRAIN

def cachedW : CachedProcessedEntry where
  nodeHash := "hash-A"
  nodeId := "node-other"
  nodeEntryPersistentId := "p-1"
  incomingInputHash := "in-1"
  incomingOutputHash := "x"
  outgoingInputHash := "y"
  outgoingOutputHash := "out-new"
  outgoingSplit := .TRAIN

def dbW : DbState where
  nodeEntries := [entryW]
  cachedProcessedEntries := [cachedW]

/-- A kind declaring cache-match fields but no cache-write fields. -/
def propsOnlyMatch : NodeCacheProps where
  cacheMatchFields := some [.incomingInputHash]
  cacheWriteFields := none

def skipNode : LLMRelabelNode where
  id := "node-1"
  projectId := "proj-1"
  relabelLLM := .SkipRelabel
  maxLLMConcurrency := 2

def relabelNode : LLMRelabelNode where
  id := "node-1"
  projectId := "proj-1"
  relabelLLM := .LLM "gpt-4"
  maxLLMConcurrency := 2

def rateLimitErr : ThrownError where
  isAPIError := true
  status := some 429
  message := "Rate limited"

def serverErr : ThrownError where
  isAPIError := true
  status := some 500
  message := "Internal error"

/-! ## Supporting lemmas -/

/-- Any fuel at least `MAX_AUTO_RETRIES + 1 - i` yields the same trace, so
the fuel encoding is faithful to the source's unbounded loop. -/
theorem queryLoopF_fuel_stable (env : TaskEnv) :
    ∀ fuel fuel' i, i ≤ MAX_AUTO_RETRIES →
      MAX_AUTO_RETRIES + 1 - i ≤ fuel → MAX_AUTO_RETRIES + 1 - i ≤ fuel' →
      queryLoopF env fuel i = queryLoopF env fuel' i := by
  intro fuel
  induction fuel with
  | zero =>
    intro fuel' i hi h h'
    omega
  | succ f ih =>
    intro fuel' i hi h h'
    cases fuel' with
    | zero => omega
    | succ f' =>
      simp only [queryLoopF]
      cases env.resp i with
      | success sc => rfl
      | failure msg sc autoRetry =>
        simp only
        by_cases hr : (autoRetry && decide (i < MAX_AUTO_RETRIES)) = true
        · have hlt : i < MAX_AUTO_RETRIES := by
            rcases Bool.and_eq_true _ _ |>.mp hr with ⟨_, h2⟩
            exact of_decide_eq_true h2
          simp only [if_pos hr]
          rw [ih f' (i + 1) (by omega) (by omega) (by omega)]
        · simp only [if_neg hr]

/-- On the happy path (existing PENDING cell, variant and scenario found,
prompt parses), the trace is the IN_PROGRESS write followed by the loop. -/
theorem queryModel_happy_eq (env : TaskEnv) (c : Cell) (hc : env.cell = some c)
    (hp : c.retrievalStatus = .PENDING) (hv : env.variantFound = true)
    (hs : env.scenarioFound = true) (hpe : env.promptError = none) :
    queryModel env = Step.updateCell { retrievalStatus := some .IN_PROGRESS } ::
      queryLoopF env (MAX_AUTO_RETRIES + 1) 0 := by
  unfold queryModel
  rw [hc]
  simp [hp, hv, hs, hpe]

/-- Provider calls in the loop started at attempt `i0` have index ≥ `i0`. -/
theorem queryLoopF_call_ge (env : TaskEnv) :
    ∀ fuel i0 j, Step.callProvider j ∈ queryLoopF env fuel i0 → i0 ≤ j := by
  intro fuel
  induction fuel with
  | zero => intro i0 j hmem; simp [queryLoopF] at hmem
  | succ f ih =>
    intro i0 j hmem
    rw [queryLoopF] at hmem
    cases hresp : env.resp i0 with
    | success sc =>
      rw [hresp] at hmem
      simp only [List.mem_cons, List.mem_singleton] at hmem
      rcases hmem with h | h | h <;> simp_all
    | failure msg sc autoRetry =>
      rw [hresp] at hmem
      simp only at hmem
      by_cases hr : (autoRetry && decide (i0 < MAX_AUTO_RETRIES)) = true
      · rw [if_pos hr] at hmem
        simp only [List.mem_cons] at hmem
        rcases hmem with h | h | h | h
        · injection h with h; omega
        · exact absurd h (by simp)
        · exact absurd h (by simp)
        · have := ih (i0 + 1) j h
          omega
      · rw [if_neg hr] at hmem
        simp only [List.mem_cons, List.mem_singleton] at hmem
        rcases hmem with h | h
        · injection h with h; omega
        · simp at h

/-- The loop always starts by calling the provider at its current index. -/
theorem queryLoopF_head_call (env : TaskEnv) (fuel i0 : Nat) (hf : 1 ≤ fuel) :
    Step.callProvider i0 ∈ queryLoopF env fuel i0 := by
  cases fuel with
  | zero => omega
  | succ f =>
    rw [queryLoopF]
    cases env.resp i0 with
    | success sc => simp
    | failure msg sc autoRetry =>
      simp only
      by_cases hr : (autoRetry && decide (i0 < MAX_AUTO_RETRIES)) = true
      · rw [if_pos hr]; simp
      · rw [if_neg hr]; simp

/-- A call at index `j + 1` in the loop is either the starting attempt or is
preceded by an auto-retryable failure at attempt `j` with `j <
MAX_AUTO_RETRIES`. -/
theorem queryLoopF_call_succ_inv (env : TaskEnv) :
    ∀ fuel i0 j, Step.callProvider (j + 1) ∈ queryLoopF env fuel i0 →
      j + 1 = i0 ∨ ∃ msg sc, env.resp j = .failure msg sc true ∧ j < MAX_AUTO_RETRIES := by
  intro fuel
  induction fuel with
  | zero => intro i0 j hmem; simp [queryLoopF] at hmem
  | succ f ih =>
    intro i0 j hmem
    rw [queryLoopF] at hmem
    cases hresp : env.resp i0 with
    | success sc =>
      rw [hresp] at hmem
      simp only [List.mem_cons, List.mem_singleton] at hmem
      rcases hmem with h | h | h
      · injection h with h; exact Or.inl h
      · simp at h
      · simp at h
    | failure msg sc autoRetry =>
      rw [hresp] at hmem
      simp only at hmem
      by_cases hr : (autoRetry && decide (i0 < MAX_AUTO_RETRIES)) = true
      · have har : autoRetry = true := (Bool.and_eq_true _ _ |>.mp hr).1
        have hlt : i0 < MAX_AUTO_RETRIES :=
          of_decide_eq_true (Bool.and_eq_true _ _ |>.mp hr).2
        rw [if_pos hr] at hmem
        simp only [List.mem_cons] at hmem
        rcases hmem with h | h | h | h
        · injection h with h; exact Or.inl h
        · simp at h
        · simp at h
        · rcases ih (i0 + 1) j h with heq | hprop
          · refine Or.inr ⟨msg, sc, ?_, ?_⟩
            · rw [show j = i0 by omega, hresp, har]
            · omega
          · exact Or.inr hprop
      · rw [if_neg hr] at hmem
        simp only [List.mem_cons, List.mem_singleton] at hmem
        rcases hmem with h | h
        · injection h with h; exact Or.inl h
        · simp at h

/-- When every provider response is an auto-retryable failure, the loop
from attempt `i` makes exactly `fuel = MAX_AUTO_RETRIES + 1 - i` calls and,
from any starting cell, leaves the cell in ERROR with `retryTime = null`. -/
theorem queryLoopF_allFail (env : TaskEnv)
    (hfail : ∀ j, ∃ msg sc, env.resp j = .failure msg sc true) :
    ∀ fuel i, 1 ≤ fuel → i + fuel = MAX_AUTO_RETRIES + 1 →
      providerCalls (queryLoopF env fuel i) = fuel ∧
      ∀ c, (runUpdates c (queryLoopF env fuel i)).retrievalStatus = .ERROR ∧
           (runUpdates c (queryLoopF env fuel i)).retryTime = none := by
  intro fuel
  induction fuel with
  | zero => intro i h1 _; omega
  | succ f ih =>
    intro i _ hsum
    have hM : MAX_AUTO_RETRIES = 10 := rfl
    obtain ⟨msg, sc, hresp⟩ := hfail i
    rw [queryLoopF, hresp]
    simp only
    by_cases hlt : i < MAX_AUTO_RETRIES
    · have hr : (true && decide (i < MAX_AUTO_RETRIES)) = true := by simp [hlt]
      rw [if_pos hr]
      have hf1 : 1 ≤ f := by omega
      obtain ⟨hcount, hcell⟩ := ih (i + 1) hf1 (by omega)
      constructor
      · simp [providerCalls, List.countP_cons, isProviderCall] at hcount ⊢
        omega
      · intro c
        simp only [runUpdates, List.foldl_cons] at hcell ⊢
        exact hcell _
    · have hf0 : f = 0 := by omega
      rw [if_neg (by simp [hlt])]
      refine ⟨?_, ?_⟩
      · simp [providerCalls, isProviderCall, hf0]
      · intro c
        simp [runUpdates, applyUpdate, hlt]

/-- If the provider's response to an attempt actually made by the loop is a
failure that is not auto-retryable or comes at attempt ≥ MAX_AUTO_RETRIES,
the loop makes no later attempt and, from any starting cell, ends in ERROR
with `retryTime = null`. -/
theorem queryLoopF_terminal_fail (env : TaskEnv) :
    ∀ fuel i0 i msg sc ar, env.resp i = .failure msg sc ar →
      (ar = false ∨ MAX_AUTO_RETRIES ≤ i) →
      Step.callProvider i ∈ queryLoopF env fuel i0 →
      (∀ j, i < j → Step.callProvider j ∉ queryLoopF env fuel i0) ∧
      ∀ c, (runUpdates c (queryLoopF env fuel i0)).retrievalStatus = .ERROR ∧
           (runUpdates c (queryLoopF env fuel i0)).retryTime = none := by
  intro fuel
  induction fuel with
  | zero => intro i0 i msg sc ar _ _ hmem; simp [queryLoopF] at hmem
  | succ f ih =>
    intro i0 i msg sc ar hresp hterm hmem
    rw [queryLoopF] at hmem ⊢
    cases hresp0 : env.resp i0 with
    | success sc0 =>
      rw [hresp0] at hmem
      simp only [List.mem_cons, List.not_mem_nil, or_false] at hmem
      rcases hmem with h | h | h
      · injection h with h
        rw [h] at hresp
        rw [hresp0] at hresp
        exact absurd hresp (by simp)
      · simp at h
      · simp at h
    | failure msg0 sc0 ar0 =>
      rw [hresp0] at hmem
      simp only at hmem ⊢
      by_cases hr : (ar0 && decide (i0 < MAX_AUTO_RETRIES)) = true
      · have har : ar0 = true := (Bool.and_eq_true _ _ |>.mp hr).1
        have hlt : i0 < MAX_AUTO_RETRIES :=
          of_decide_eq_true (Bool.and_eq_true _ _ |>.mp hr).2
        rw [if_pos hr] at hmem ⊢
        have hne : i ≠ i0 := by
          intro heq
          rw [heq] at hresp
          rw [hresp0] at hresp
          injection hresp with _ _ hareq
          rcases hterm with h | h
          · rw [hareq, h] at har
            exact absurd har (by simp)
          · omega
        have hrest : Step.callProvider i ∈ queryLoopF env f (i0 + 1) := by
          simp only [List.mem_cons] at hmem
          rcases hmem with h | h | h | h
          · exact absurd (Step.callProvider.inj h) hne
          · simp at h
          · simp at h
          · exact h
        have hge : i0 + 1 ≤ i := queryLoopF_call_ge env f (i0 + 1) i hrest
        obtain ⟨hnone, hcell⟩ := ih (i0 + 1) i msg sc ar hresp hterm hrest
        constructor
        · intro j hj
          simp only [List.mem_cons]
          push_neg
          refine ⟨?_, ?_, ?_, ?_⟩
          · intro h; injection h with h; omega
          · simp
          · simp
          · exact fun hmem2 => hnone j hj hmem2
        · intro c
          simp only [runUpdates, List.foldl_cons] at hcell ⊢
          exact hcell _
      · rw [if_neg hr] at hmem ⊢
        simp only [List.mem_cons, List.not_mem_nil, or_false] at hmem
        have hii0 : i = i0 := by
          rcases hmem with h | h
          · exact Step.callProvider.inj h
          · simp at h
        constructor
        · intro j hj
          simp only [List.mem_cons, List.not_mem_nil, or_false]
          push_neg
          constructor
          · intro h; injection h with h; omega
          · simp
        · intro c
          simp [runUpdates, applyUpdate, hr]

/-- No write performed by the retry loop sets the status to PENDING (they
all set ERROR or COMPLETE). -/
theorem queryLoopF_no_pending (env : TaskEnv) :
    ∀ fuel i0 s, s ∈ queryLoopF env fuel i0 → setsPending s = false := by
  intro fuel
  induction fuel with
  | zero => intro i0 s hmem; simp [queryLoopF] at hmem
  | succ f ih =>
    intro i0 s hmem
    rw [queryLoopF] at hmem
    cases hresp0 : env.resp i0 with
    | success sc0 =>
      rw [hresp0] at hmem
      simp only [List.mem_cons, List.not_mem_nil, or_false] at hmem
      rcases hmem with h | h | h <;> simp [h, setsPending]
    | failure msg0 sc0 ar0 =>
      rw [hresp0] at hmem
      simp only at hmem
      by_cases hr : (ar0 && decide (i0 < MAX_AUTO_RETRIES)) = true
      · rw [if_pos hr] at hmem
        simp only [List.mem_cons] at hmem
        rcases hmem with h | h | h | h
        · simp [h, setsPending]
        · simp [h, setsPending]
        · simp [h, setsPending]
        · exact ih (i0 + 1) s h
      · rw [if_neg hr] at hmem
        simp only [List.mem_cons, List.not_mem_nil, or_false] at hmem
        rcases hmem with h | h <;> simp [h, setsPending]

/-- After an auto-retryable failure at an attempt `i < MAX_AUTO_RETRIES`
actually made by the loop, the loop calls the provider again at attempt
`i + 1`. -/
theorem queryLoopF_retry_continues (env : TaskEnv) :
    ∀ fuel i0, i0 + fuel = MAX_AUTO_RETRIES + 1 →
      ∀ i msg sc, env.resp i = .failure msg sc true → i < MAX_AUTO_RETRIES →
      Step.callProvider i ∈ queryLoopF env fuel i0 →
      Step.callProvider (i + 1) ∈ queryLoopF env fuel i0 := by
  intro fuel
  induction fuel with
  | zero => intro i0 _ i msg sc _ _ hmem; simp [queryLoopF] at hmem
  | succ f ih =>
    intro i0 hsum i msg sc hresp hlt hmem
    rw [queryLoopF] at hmem ⊢
    cases hresp0 : env.resp i0 with
    | success sc0 =>
      rw [hresp0] at hmem
      simp only [List.mem_cons, List.not_mem_nil, or_false] at hmem
      rcases hmem with h | h | h
      · injection h with h
        rw [h] at hresp
        rw [hresp0] at hresp
        exact absurd hresp (by simp)
      · simp at h
      · simp at h
    | failure msg0 sc0 ar0 =>
      rw [hresp0] at hmem
      simp only at hmem ⊢
      by_cases hr : (ar0 && decide (i0 < MAX_AUTO_RETRIES)) = true
      · rw [if_pos hr] at hmem ⊢
        simp only [List.mem_cons] at hmem ⊢
        rcases hmem with h | h | h | h
        · injection h with h
          refine Or.inr (Or.inr (Or.inr ?_))
          rw [← h]
          exact queryLoopF_head_call env f (i + 1) (by omega)
        · simp at h
        · simp at h
        · exact Or.inr (Or.inr (Or.inr (ih (i0 + 1) (by omega) i msg sc hresp hlt h)))
      · rw [if_neg hr] at hmem
        simp only [List.mem_cons, List.not_mem_nil, or_false] at hmem
        have hii0 : i = i0 := by
          rcases hmem with h | h
          · exact Step.callProvider.inj h
          · simp at h
        rw [hii0] at hresp
        rw [hresp0] at hresp
        injection hresp with _ _ hareq
        rw [← hareq] at hr
        rw [hii0] at hlt
        simp [hlt] at hr

/-- No write performed by the retry loop sets the status to IN_PROGRESS
(they all set ERROR or COMPLETE). -/
theorem queryLoopF_no_in_progress (env : TaskEnv) :
    ∀ fuel i0 s, s ∈ queryLoopF env fuel i0 → setsInProgress s = false := by
  intro fuel
  induction fuel with
  | zero => intro i0 s hmem; simp [queryLoopF] at hmem
  | succ f ih =>
    intro i0 s hmem
    rw [queryLoopF] at hmem
    cases hresp0 : env.resp i0 with
    | success sc0 =>
      rw [hresp0] at hmem
      simp only [List.mem_cons, List.not_mem_nil, or_false] at hmem
      rcases hmem with h | h | h <;> simp [h, setsInProgress]
    | failure msg0 sc0 ar0 =>
      rw [hresp0] at hmem
      simp only at hmem
      by_cases hr : (ar0 && decide (i0 < MAX_AUTO_RETRIES)) = true
      · rw [if_pos hr] at hmem
        simp only [List.mem_cons] at hmem
        rcases hmem with h | h | h | h
        · simp [h, setsInProgress]
        · simp [h, setsInProgress]
        · simp [h, setsInProgress]
        · exact ih (i0 + 1) s h
      · rw [if_neg hr] at hmem
        simp only [List.mem_cons, List.not_mem_nil, or_false] at hmem
        rcases hmem with h | h <;> simp [h, setsInProgress]

/-- A non-empty loop trace starts with the provider call of its current
attempt. -/
theorem queryLoopF_cons_head (env : TaskEnv) (fuel i0 : Nat) (hf : 1 ≤ fuel) :
    ∃ tail, queryLoopF env fuel i0 = Step.callProvider i0 :: tail := by
  cases fuel with
  | zero => omega
  | succ f =>
    rw [queryLoopF]
    cases env.resp i0 with
    | success sc => exact ⟨_, rfl⟩
    | failure msg sc autoRetry =>
      simp only
      by_cases hr : (autoRetry && decide (i0 < MAX_AUTO_RETRIES)) = true
      · rw [if_pos hr]
        exact ⟨_, rfl⟩
      · rw [if_neg hr]
        exact ⟨_, rfl⟩

/-- After an auto-retryable failure at an attempt `i < MAX_AUTO_RETRIES`
actually made by the loop, the trace continues with exactly the ERROR write
carrying the scheduled retryTime, the sleep, and the next provider call:
no other cell write stands between the failure and the next attempt. -/
theorem queryLoopF_retry_decomposition (env : TaskEnv) :
    ∀ fuel i0, i0 + fuel = MAX_AUTO_RETRIES + 1 →
      ∀ i msg sc, env.resp i = .failure msg sc true → i < MAX_AUTO_RETRIES →
      Step.callProvider i ∈ queryLoopF env fuel i0 →
      ∃ pre rest, queryLoopF env fuel i0 = pre ++
        Step.callProvider i ::
        Step.updateCell { errorMessage := some msg,
                          statusCode := some sc,
                          retryTime := some (some (env.now i +
                            calculateDelay (env.rand i) i)),
                          retrievalStatus := some .ERROR } ::
        Step.sleepFor (calculateDelay (env.rand i) i) ::
        Step.callProvider (i + 1) :: rest := by
  intro fuel
  induction fuel with
  | zero => intro i0 _ i msg sc _ _ hmem; simp [queryLoopF] at hmem
  | succ f ih =>
    intro i0 hsum i msg sc hresp hlt hmem
    rw [queryLoopF] at hmem ⊢
    cases hresp0 : env.resp i0 with
    | success sc0 =>
      rw [hresp0] at hmem
      simp only [List.mem_cons, List.not_mem_nil, or_false] at hmem
      rcases hmem with h | h | h
      · have hii0 : i = i0 := Step.callProvider.inj h
        rw [hii0] at hresp
        rw [hresp0] at hresp
        exact absurd hresp (by simp)
      · simp at h
      · simp at h
    | failure msg0 sc0 ar0 =>
      rw [hresp0] at hmem
      simp only at hmem ⊢
      by_cases hr : (ar0 && decide (i0 < MAX_AUTO_RETRIES)) = true
      · simp only [if_pos hr] at hmem ⊢
        simp only [List.mem_cons] at hmem
        rcases hmem with h | h | h | h
        · have hii0 : i = i0 := Step.callProvider.inj h
          subst hii0
          rw [hresp0] at hresp
          injection hresp with hmsg hsc har
          subst hmsg
          subst hsc
          obtain ⟨tail, htail⟩ := queryLoopF_cons_head env f (i + 1) (by omega)
          exact ⟨[], tail, by rw [htail]; simp⟩
        · simp at h
        · simp at h
        · obtain ⟨pre, rest, heq⟩ := ih (i0 + 1) (by omega) i msg sc hresp hlt h
          exact ⟨Step.callProvider i0 ::
            Step.updateCell { errorMessage := some msg0,
                              statusCode := some sc0,
                              retryTime := some (some (env.now i0 +
                                calculateDelay (env.rand i0) i0)),
                              retrievalStatus := some .ERROR } ::
            Step.sleepFor (calculateDelay (env.rand i0) i0) :: pre, rest,
            by rw [heq]; simp⟩
      · rw [if_neg hr] at hmem
        simp only [List.mem_cons, List.not_mem_nil, or_false] at hmem
        have hii0 : i = i0 := by
          rcases hmem with h | h
          · exact Step.callProvider.inj h
          · simp at h
        rw [hii0] at hresp
        rw [hresp0] at hresp
        injection hresp with _ _ hareq
        rw [← hareq] at hr
        rw [hii0] at hlt
        simp [hlt] at hr

theorem runUpdates_cons_update (c : Cell) (u : CellUpdate) (rest : List Step) :
    runUpdates c (Step.updateCell u :: rest) = runUpdates (applyUpdate c u) rest := rfl

/-! ## Claim theorems -/

/-- C3: for every attempt index `i ≥ 0` and jitter sample `r ∈ [0, 1)`, the
computed retry delay equals `min(15000, 500·2^i) · (1 + r)` ms and so lies
in `[min(15000, 500·2^i), 2·min(15000, 500·2^i)]` ms. -/
theorem calculateDelay_formula_and_bounds (i : Nat) (r : ℚ)
    (h0 : 0 ≤ r) (h1 : r < 1) :
    calculateDelay r i = min 15000 (500 * 2 ^ i) * (1 + r) ∧
    min 15000 (500 * 2 ^ i) ≤ calculateDelay r i ∧
    calculateDelay r i ≤ 2 * min 15000 (500 * 2 ^ i) := by
  have hcd : calculateDelay r i =
      min 15000 (500 * 2 ^ i) + r * min 15000 (500 * 2 ^ i) := rfl
  have hbpos : (0 : ℚ) < min 15000 (500 * 2 ^ i) := by
    apply lt_min
    · norm_num
    · positivity
  refine ⟨by rw [hcd]; ring, ?_, ?_⟩
  · rw [hcd]
    nlinarith [mul_nonneg h0 hbpos.le]
  · rw [hcd]
    nlinarith [mul_le_mul_of_nonneg_right h1.le hbpos.le]

/-- C3 witness at `i = 3`, `r = 1/2`. -/
theorem calculateDelay_formula_and_bounds_witness :
    (0 : ℚ) ≤ 1 / 2 ∧ (1 : ℚ) / 2 < 1 ∧
    (calculateDelay (1 / 2) 3 = min 15000 (500 * 2 ^ 3) * (1 + 1 / 2) ∧
     min 15000 (500 * 2 ^ 3) ≤ calculateDelay (1 / 2) 3 ∧
     calculateDelay (1 / 2) 3 ≤ 2 * min 15000 (500 * 2 ^ 3)) :=
  ⟨by norm_num, by norm_num,
   calculateDelay_formula_and_bounds 3 (1 / 2) (by norm_num) (by norm_num)⟩

/-- C4: for a cell that exists and is not PENDING at pickup, queryModel
returns immediately: no provider call and no write to any cell field. -/
theorem queryModel_not_pending_no_op (env : TaskEnv) (c : Cell)
    (hc : env.cell = some c) (hs : c.retrievalStatus ≠ .PENDING) :
    queryModel env = [] ∧ providerCalls (queryModel env) = 0 ∧
    runUpdates c (queryModel env) = c := by
  have ht : queryModel env = [] := by
    unfold queryModel
    rw [hc]
    simp [hs]
  rw [ht]
  exact ⟨rfl, rfl, rfl⟩

/-- C4 witness: a COMPLETE cell. -/
theorem queryModel_not_pending_no_op_witness :
    queryModel envNotPending = [] ∧ providerCalls (queryModel envNotPending) = 0 ∧
    runUpdates cellComplete (queryModel envNotPending) = cellComplete :=
  queryModel_not_pending_no_op envNotPending cellComplete rfl (by decide)

/-- C1: with a provider that fails auto-retryably on every call, a run
picked up on a PENDING cell makes exactly 11 provider calls (the initial
attempt plus 10 retries) and leaves the cell in ERROR with
`retryTime = null`. -/
theorem queryModel_all_retryable_eleven_calls (env : TaskEnv) (c : Cell)
    (hc : env.cell = some c) (hp : c.retrievalStatus = .PENDING)
    (hv : env.variantFound = true) (hs : env.scenarioFound = true)
    (hpe : env.promptError = none)
    (hfail : ∀ j, ∃ msg sc, env.resp j = .failure msg sc true) :
    providerCalls (queryModel env) = 11 ∧
    (runUpdates c (queryModel env)).retrievalStatus = .ERROR ∧
    (runUpdates c (queryModel env)).retryTime = none := by
  rw [queryModel_happy_eq env c hc hp hv hs hpe]
  obtain ⟨hcount, hcell⟩ :=
    queryLoopF_allFail env hfail (MAX_AUTO_RETRIES + 1) 0 (by omega) (by omega)
  refine ⟨?_, ?_, ?_⟩
  · simp [providerCalls, List.countP_cons, isProviderCall, MAX_AUTO_RETRIES] at hcount ⊢
    omega
  · rw [runUpdates_cons_update]
    exact (hcell _).1
  · rw [runUpdates_cons_update]
    exact (hcell _).2

/-- C1 witness: concrete always-rate-limited environment. -/
theorem queryModel_all_retryable_eleven_calls_witness :
    providerCalls (queryModel envAllFail) = 11 ∧
    (runUpdates cellPending (queryModel envAllFail)).retrievalStatus = .ERROR ∧
    (runUpdates cellPending (queryModel envAllFail)).retryTime = none :=
  queryModel_all_retryable_eleven_calls envAllFail cellPending rfl rfl rfl rfl rfl
    (fun _ => ⟨"Rate limited", 429, rfl⟩)

/-- C2: a failed attempt is followed by another provider call only if it was
auto-retryable and came at an attempt index `< MAX_AUTO_RETRIES`; otherwise
the loop terminates with the cell in ERROR and `retryTime = null` and no
later provider attempt occurs. -/
theorem queryModel_retry_gate (env : TaskEnv) (c : Cell)
    (hc : env.cell = some c) (hp : c.retrievalStatus = .PENDING)
    (hv : env.variantFound = true) (hs : env.scenarioFound = true)
    (hpe : env.promptError = none) :
    (∀ j, Step.callProvider (j + 1) ∈ queryModel env →
       ∃ msg sc, env.resp j = .failure msg sc true ∧ j < MAX_AUTO_RETRIES) ∧
    (∀ i msg sc ar, env.resp i = .failure msg sc ar →
       (ar = false ∨ MAX_AUTO_RETRIES ≤ i) →
       Step.callProvider i ∈ queryModel env →
       (runUpdates c (queryModel env)).retrievalStatus = .ERROR ∧
       (runUpdates c (queryModel env)).retryTime = none ∧
       ∀ j, i < j → Step.callProvider j ∉ queryModel env) := by
  rw [queryModel_happy_eq env c hc hp hv hs hpe]
  constructor
  · intro j hmem
    have hmem2 : Step.callProvider (j + 1) ∈ queryLoopF env (MAX_AUTO_RETRIES + 1) 0 := by
      rcases List.mem_cons.mp hmem with h | h
      · simp at h
      · exact h
    rcases queryLoopF_call_succ_inv env (MAX_AUTO_RETRIES + 1) 0 j hmem2 with h | h
    · omega
    · exact h
  · intro i msg sc ar hresp hterm hmem
    have hmem2 : Step.callProvider i ∈ queryLoopF env (MAX_AUTO_RETRIES + 1) 0 := by
      rcases List.mem_cons.mp hmem with h | h
      · simp at h
      · exact h
    obtain ⟨hnone, hcell⟩ :=
      queryLoopF_terminal_fail env (MAX_AUTO_RETRIES + 1) 0 i msg sc ar hresp hterm hmem2
    refine ⟨?_, ?_, ?_⟩
    · rw [runUpdates_cons_update]
      exact (hcell _).1
    · rw [runUpdates_cons_update]
      exact (hcell _).2
    · intro j hj hmem3
      rcases List.mem_cons.mp hmem3 with h | h
      · simp at h
      · exact hnone j hj h

/-- C2 witness: a provider failing non-retryably on the first attempt. -/
theorem queryModel_retry_gate_witness :
    (runUpdates cellPending (queryModel envTermFail)).retrievalStatus = .ERROR ∧
    (runUpdates cellPending (queryModel envTermFail)).retryTime = none ∧
    ∀ j, 0 < j → Step.callProvider j ∉ queryModel envTermFail :=
  (queryModel_retry_gate envTermFail cellPending rfl rfl rfl rfl rfl).2
    0 "Internal error" 500 false rfl (Or.inl rfl) (by decide)

/-- C7 counterexample: a run with a retryable failure followed by a retry in
which no write ever sets the cell back to PENDING — so the claimed
ERROR → PENDING → IN_PROGRESS transitions before the retry do not happen. -/
theorem queryModel_no_pending_write_counterexample :
    Step.callProvider 1 ∈ queryModel envOneFail ∧
    ∀ s ∈ queryModel envOneFail, setsPending s = false := by
  constructor
  · decide
  · decide

/-- C7 (amended): between a retryable failure and the next provider attempt
the cell stays in ERROR with the scheduled retryTime.  Precisely: the run
writes IN_PROGRESS exactly once, as its very first step; no step of the
retry loop writes PENDING or IN_PROGRESS; and after an auto-retryable
failure at attempt `i < MAX_AUTO_RETRIES` the trace continues with exactly
the ERROR write carrying `retryTime = now + delay`, the sleep, and the next
provider call — no other cell write stands in between. -/
theorem queryModel_error_persists_between_retries (env : TaskEnv) (c : Cell)
    (hc : env.cell = some c) (hp : c.retrievalStatus = .PENDING)
    (hv : env.variantFound = true) (hs : env.scenarioFound = true)
    (hpe : env.promptError = none) :
    queryModel env = Step.updateCell { retrievalStatus := some .IN_PROGRESS } ::
      queryLoopF env (MAX_AUTO_RETRIES + 1) 0 ∧
    (∀ s ∈ queryLoopF env (MAX_AUTO_RETRIES + 1) 0,
       setsPending s = false ∧ setsInProgress s = false) ∧
    (∀ i msg sc, env.resp i = .failure msg sc true → i < MAX_AUTO_RETRIES →
       Step.callProvider i ∈ queryModel env →
       ∃ pre rest, queryModel env = pre ++
         Step.callProvider i ::
         Step.updateCell { errorMessage := some msg,
                           statusCode := some sc,
                           retryTime := some (some (env.now i +
                             calculateDelay (env.rand i) i)),
                           retrievalStatus := some .ERROR } ::
         Step.sleepFor (calculateDelay (env.rand i) i) ::
         Step.callProvider (i + 1) :: rest) := by
  have hq := queryModel_happy_eq env c hc hp hv hs hpe
  refine ⟨hq, ?_, ?_⟩
  · intro s hmem
    exact ⟨queryLoopF_no_pending env (MAX_AUTO_RETRIES + 1) 0 s hmem,
           queryLoopF_no_in_progress env (MAX_AUTO_RETRIES + 1) 0 s hmem⟩
  · intro i msg sc hresp hlt hmem
    rw [hq] at hmem
    have hmem2 : Step.callProvider i ∈ queryLoopF env (MAX_AUTO_RETRIES + 1) 0 := by
      rcases List.mem_cons.mp hmem with h | h
      · simp at h
      · exact h
    obtain ⟨pre, rest, heq⟩ :=
      queryLoopF_retry_decomposition env (MAX_AUTO_RETRIES + 1) 0 (by omega)
        i msg sc hresp hlt hmem2
    refine ⟨Step.updateCell { retrievalStatus := some .IN_PROGRESS } :: pre, rest, ?_⟩
    rw [hq, heq]
    simp

/-- C7 (amended) witness: after the retryable failure of attempt 0, the
trace continues with exactly the ERROR write scheduling the retry, the
sleep and attempt 1, and no loop step writes PENDING or IN_PROGRESS. -/
theorem queryModel_error_persists_between_retries_witness :
    (∀ s ∈ queryLoopF envOneFail (MAX_AUTO_RETRIES + 1) 0,
       setsPending s = false ∧ setsInProgress s = false) ∧
    (∃ pre rest, queryModel envOneFail = pre ++
       Step.callProvider 0 ::
       Step.updateCell { errorMessage := some "Rate limited",
                         statusCode := some 429,
                         retryTime := some (some (envOneFail.now 0 +
                           calculateDelay (envOneFail.rand 0) 0)),
                         retrievalStatus := some .ERROR } ::
       Step.sleepFor (calculateDelay (envOneFail.rand 0) 0) ::
       Step.callProvider (0 + 1) :: rest) :=
  ⟨(queryModel_error_persists_between_retries envOneFail cellPending
      rfl rfl rfl rfl rfl).2.1,
   (queryModel_error_persists_between_retries envOneFail cellPending
      rfl rfl rfl rfl rfl).2.2 0 "Rate limited" 429 rfl (by decide) (by decide)⟩

/-- C9: the terminal not-found and validation error paths write only
`statusCode`, `errorMessage` and `retrievalStatus = ERROR`; no update of
those runs mentions `retryTime`, so the cell keeps whatever (possibly
stale, non-null) `retryTime` it had. -/
theorem queryModel_terminal_error_keeps_retryTime (env : TaskEnv) (c : Cell) :
    (env.cell = none → ∀ s ∈ queryModel env, touchesRetryTime s = false) ∧
    (env.cell = some c → c.retrievalStatus = .PENDING →
      (env.variantFound = false ∨ env.scenarioFound = false ∨
        ∃ e, env.promptError = some e) →
      (∀ s ∈ queryModel env, touchesRetryTime s = false) ∧
      (runUpdates c (queryModel env)).retrievalStatus = .ERROR ∧
      (runUpdates c (queryModel env)).retryTime = c.retryTime) := by
  constructor
  · intro hc s hmem
    unfold queryModel at hmem
    rw [hc] at hmem
    simp only [List.mem_cons, List.not_mem_nil, or_false] at hmem
    rw [hmem]
    rfl
  · intro hc hp herr
    cases hv : env.variantFound with
    | false =>
      have ht : queryModel env =
          [Step.updateCell { retrievalStatus := some .IN_PROGRESS },
           Step.updateCell { statusCode := some 404,
                             errorMessage := some "Prompt Variant not found",
                             retrievalStatus := some .ERROR }] := by
        unfold queryModel
        rw [hc]
        simp [hp, hv]
      rw [ht]
      refine ⟨?_, rfl, rfl⟩
      intro s hmem
      rcases List.mem_cons.mp hmem with h | h
      · rw [h]; rfl
      · rcases List.mem_cons.mp h with h2 | h2
        · rw [h2]; rfl
        · simp at h2
    | true =>
      cases hsc : env.scenarioFound with
      | false =>
        have ht : queryModel env =
            [Step.updateCell { retrievalStatus := some .IN_PROGRESS },
             Step.updateCell { statusCode := some 404,
                               errorMessage := some "Scenario not found",
                               retrievalStatus := some .ERROR }] := by
          unfold queryModel
          rw [hc]
          simp [hp, hv, hsc]
        rw [ht]
        refine ⟨?_, rfl, rfl⟩
        intro s hmem
        rcases List.mem_cons.mp hmem with h | h
        · rw [h]; rfl
        · rcases List.mem_cons.mp h with h2 | h2
          · rw [h2]; rfl
          · simp at h2
      | true =>
        cases hpe : env.promptError with
        | none =>
          rcases herr with h | h | ⟨e, he⟩
          · rw [hv] at h; exact absurd h (by simp)
          · rw [hsc] at h; exact absurd h (by simp)
          · rw [hpe] at he; exact absurd he (by simp)
        | some e =>
          have ht : queryModel env =
              [Step.updateCell { retrievalStatus := some .IN_PROGRESS },
               Step.updateCell { statusCode := some 400, errorMessage := some e,
                                 retrievalStatus := some .ERROR }] := by
            unfold queryModel
            rw [hc]
            simp [hp, hv, hsc, hpe]
          rw [ht]
          refine ⟨?_, rfl, rfl⟩
          intro s hmem
          rcases List.mem_cons.mp hmem with h | h
          · rw [h]; rfl
          · rcases List.mem_cons.mp h with h2 | h2
            · rw [h2]; rfl
            · simp at h2

/-- C9 witness: a PENDING cell with a stale non-null `retryTime` whose
prompt variant is missing ends in ERROR still carrying `retryTime = 12345`. -/
theorem queryModel_terminal_error_keeps_retryTime_witness :
    ((∀ s ∈ queryModel envVariantMissing, touchesRetryTime s = false) ∧
     (runUpdates cellStale (queryModel envVariantMissing)).retrievalStatus = .ERROR ∧
     (runUpdates cellStale (queryModel envVariantMissing)).retryTime =
       cellStale.retryTime) ∧
    cellStale.retryTime = some 12345 :=
  ⟨(queryModel_terminal_error_keeps_retryTime envVariantMissing cellStale).2
      rfl rfl (Or.inl rfl), rfl⟩

theorem cacheMatches_llmRelabel (node : NodeRec) (ne : NodeEntry)
    (r : CachedProcessedEntry) :
    cacheMatches [CacheMatchField.incomingInputHash] node ne r =
      ((r.nodeHash == node.hash || r.nodeId == node.id) &&
        (ne.inputHash == r.incomingInputHash)) := by
  have c1 : [CacheMatchField.incomingInputHash].contains
      CacheMatchField.nodeEntryPersistentId = false := by decide
  have c2 : [CacheMatchField.incomingInputHash].contains
      CacheMatchField.incomingInputHash = true := by decide
  have c3 : [CacheMatchField.incomingInputHash].contains
      CacheMatchField.incomingOutputHash = false := by decide
  unfold cacheMatches
  rw [c1, c2, c3]
  simp

theorem applyCacheWrite_llmRelabel (ne : NodeEntry) (r : CachedProcessedEntry) :
    applyCacheWrite [CacheWriteField.outgoingOutputHash] ne r =
      { ne with status := NodeEntryStatus.PROCESSED,
                outputHash := r.outgoingOutputHash,
                originalOutputHash := some ne.outputHash } := rfl

/-- C5: `updateCached` with the LLMRelabel cache declaration sets status
PROCESSED exactly for the PENDING entries of the given node matched by some
cached record (keyed by the node's hash OR id, with equal input hash); the
matched rows get `outputHash` from the record (the old output hash being
kept in `originalOutputHash`) with no other field changed and no row
transform involved; all other rows are unchanged. -/
theorem updateCached_llmRelabel_characterization (node : NodeRec) (db : DbState)
    (i : Nat) (hi : i < db.nodeEntries.length) :
    (updateCached llmRelabelCacheProps node db).nodeEntries.length =
      db.nodeEntries.length ∧
    (((db.nodeEntries.getD i default).nodeId = node.id ∧
      (db.nodeEntries.getD i default).status = NodeEntryStatus.PENDING ∧
      ∃ r ∈ db.cachedProcessedEntries,
        (r.nodeHash = node.hash ∨ r.nodeId = node.id) ∧
        (db.nodeEntries.getD i default).inputHash = r.incomingInputHash) →
      ∃ r ∈ db.cachedProcessedEntries,
        (r.nodeHash = node.hash ∨ r.nodeId = node.id) ∧
        (db.nodeEntries.getD i default).inputHash = r.incomingInputHash ∧
        (updateCached llmRelabelCacheProps node db).nodeEntries.getD i default =
          { db.nodeEntries.getD i default with
              status := NodeEntryStatus.PROCESSED,
              outputHash := r.outgoingOutputHash,
              originalOutputHash := some (db.nodeEntries.getD i default).outputHash }) ∧
    (¬((db.nodeEntries.getD i default).nodeId = node.id ∧
       (db.nodeEntries.getD i default).status = NodeEntryStatus.PENDING ∧
       ∃ r ∈ db.cachedProcessedEntries,
         (r.nodeHash = node.hash ∨ r.nodeId = node.id) ∧
         (db.nodeEntries.getD i default).inputHash = r.incomingInputHash) →
      (updateCached llmRelabelCacheProps node db).nodeEntries.getD i default =
        db.nodeEntries.getD i default) := by
  have hu : (updateCached llmRelabelCacheProps node db).nodeEntries =
      db.nodeEntries.map (fun ne =>
        if ne.nodeId == node.id && ne.status == NodeEntryStatus.PENDING then
          match db.cachedProcessedEntries.find?
              (cacheMatches [CacheMatchField.incomingInputHash] node ne) with
          | some cpne => applyCacheWrite [CacheWriteField.outgoingOutputHash] ne cpne
          | none => ne
        else ne) := rfl
  set ne := db.nodeEntries.getD i default with hnedef
  have hkey : ∀ g : NodeEntry → NodeEntry,
      (db.nodeEntries.map g).getD i default = g ne := by
    intro g
    rw [List.getD_eq_getElem _ _ (by simpa using hi), List.getElem_map,
      hnedef, List.getD_eq_getElem _ _ hi]
  refine ⟨by rw [hu]; exact List.length_map _ _, ?_, ?_⟩
  · intro hcond
    rw [hu, hkey]
    have hb : (ne.nodeId == node.id && ne.status == NodeEntryStatus.PENDING) = true := by
      simp [hcond.1, hcond.2.1]
    rw [if_pos hb]
    cases hf : db.cachedProcessedEntries.find?
        (cacheMatches [CacheMatchField.incomingInputHash] node ne) with
    | some r =>
      have hrmem : r ∈ db.cachedProcessedEntries := List.mem_of_find?_eq_some hf
      have hrp := List.find?_some hf
      rw [cacheMatches_llmRelabel] at hrp
      rcases Bool.and_eq_true _ _ |>.mp hrp with ⟨h1, h2⟩
      refine ⟨r, hrmem, ?_, ?_, ?_⟩
      · rcases Bool.or_eq_true _ _ |>.mp h1 with h | h
        · exact Or.inl (beq_iff_eq.mp h)
        · exact Or.inr (beq_iff_eq.mp h)
      · exact beq_iff_eq.mp h2
      · exact applyCacheWrite_llmRelabel ne r
    | none =>
      exfalso
      rcases hcond with ⟨_, _, r, hrmem, hor, hih⟩
      have := List.find?_eq_none.mp hf r hrmem
      rw [cacheMatches_llmRelabel] at this
      apply this
      simp only [Bool.and_eq_true, Bool.or_eq_true, beq_iff_eq]
      exact ⟨by rcases hor with h | h; exact Or.inl h; exact Or.inr h, hih⟩
  · intro hcond
    rw [hu, hkey]
    by_cases hb : (ne.nodeId == node.id && ne.status == NodeEntryStatus.PENDING) = true
    · rw [if_pos hb]
      rcases Bool.and_eq_true _ _ |>.mp hb with ⟨hb1, hb2⟩
      cases hf : db.cachedProcessedEntries.find?
          (cacheMatches [CacheMatchField.incomingInputHash] node ne) with
      | some r =>
        exfalso
        apply hcond
        have hrmem : r ∈ db.cachedProcessedEntries := List.mem_of_find?_eq_some hf
        have hrp := List.find?_some hf
        rw [cacheMatches_llmRelabel] at hrp
        rcases Bool.and_eq_true _ _ |>.mp hrp with ⟨h1, h2⟩
        refine ⟨beq_iff_eq.mp hb1, beq_iff_eq.mp hb2, r, hrmem, ?_, beq_iff_eq.mp h2⟩
        rcases Bool.or_eq_true _ _ |>.mp h1 with h | h
        · exact Or.inl (beq_iff_eq.mp h)
        · exact Or.inr (beq_iff_eq.mp h)
      | none => rfl
    · rw [if_neg hb]

/-- C5 witness: one PENDING entry matched by a cached record keyed by the
node's hash. -/
theorem updateCached_llmRelabel_characterization_witness :
    ∃ r ∈ dbW.cachedProcessedEntries,
      (r.nodeHash = nodeW.hash ∨ r.nodeId = nodeW.id) ∧
      (dbW.nodeEntries.getD 0 default).inputHash = r.incomingInputHash ∧
      (updateCached llmRelabelCacheProps nodeW dbW).nodeEntries.getD 0 default =
        { dbW.nodeEntries.getD 0 default with
            status := NodeEntryStatus.PROCESSED,
            outputHash := r.outgoingOutputHash,
            originalOutputHash := some (dbW.nodeEntries.getD 0 default).outputHash } :=
  (updateCached_llmRelabel_characterization nodeW dbW 0 (by decide)).2.1
    ⟨rfl, rfl, cachedW, by decide, Or.inl rfl, rfl⟩

/-- C10: a kind declaring only one of `cacheMatchFields`/`cacheWriteFields`,
or neither, makes `updateCached` a no-op on the whole database state. -/
theorem updateCached_requires_both_declarations (props : NodeCacheProps)
    (node : NodeRec) (db : DbState)
    (h : props.cacheMatchFields = none ∨ props.cacheWriteFields = none) :
    updateCached props node db = db := by
  unfold updateCached
  rcases h with h | h
  · rw [h]
  · rw [h]
    cases props.cacheMatchFields <;> rfl

/-- C10 witness: match fields declared, write fields not. -/
theorem updateCached_requires_both_declarations_witness :
    updateCached propsOnlyMatch nodeW dbW = dbW :=
  updateCached_requires_both_declarations propsOnlyMatch nodeW dbW (Or.inr rfl)

/-- C8: when an LLMRelabel node is configured to skip relabelling,
`beforeProcessing` marks exactly the PENDING entries of that node
PROCESSED — a bulk status write that never goes through `processEntry` —
and leaves entries of other nodes or with other statuses unchanged. -/
theorem beforeProcessing_skip_marks_pending_processed (node : LLMRelabelNode)
    (entries : List NodeEntry) (i : Nat)
    (hskip : node.relabelLLM = RelabelOption.SkipRelabel)
    (hi : i < entries.length) :
    (beforeProcessing node entries).length = entries.length ∧
    (((entries.getD i default).nodeId = node.id ∧
      (entries.getD i default).status = NodeEntryStatus.PENDING) →
      (beforeProcessing node entries).getD i default =
        { entries.getD i default with status := NodeEntryStatus.PROCESSED }) ∧
    (¬((entries.getD i default).nodeId = node.id ∧
       (entries.getD i default).status = NodeEntryStatus.PENDING) →
      (beforeProcessing node entries).getD i default = entries.getD i default) := by
  have hb : beforeProcessing node entries = entries.map (fun ne =>
      if ne.nodeId == node.id && ne.status == NodeEntryStatus.PENDING then
        { ne with status := NodeEntryStatus.PROCESSED }
      else ne) := by
    unfold beforeProcessing
    rw [if_pos hskip]
  set ne := entries.getD i default with hnedef
  have hkey : ∀ g : NodeEntry → NodeEntry,
      (entries.map g).getD i default = g ne := by
    intro g
    rw [List.getD_eq_getElem _ _ (by simpa using hi), List.getElem_map,
      hnedef, List.getD_eq_getElem _ _ hi]
  refine ⟨by rw [hb]; exact List.length_map _ _, ?_, ?_⟩
  · intro hcond
    rw [hb, hkey]
    rw [if_pos (by simp [hcond.1, hcond.2])]
  · intro hcond
    rw [hb, hkey]
    rw [if_neg ?_]
    intro hbool
    rcases Bool.and_eq_true _ _ |>.mp hbool with ⟨h1, h2⟩
    exact hcond ⟨beq_iff_eq.mp h1, beq_iff_eq.mp h2⟩

/-- C8 witness: a PENDING entry of the node gets PROCESSED under skip. -/
theorem beforeProcessing_skip_marks_pending_processed_witness :
    (beforeProcessing skipNode [entryW]).getD 0 default =
      { [entryW].getD 0 default with status := NodeEntryStatus.PROCESSED } :=
  (beforeProcessing_skip_marks_pending_processed skipNode [entryW] 0 rfl
    (by decide)).2.1 ⟨rfl, rfl⟩

/-- C6: the LLMRelabel `processEntry` transform maps a thrown APIError with
HTTP status 429 to `{status: PENDING}` with the error message (not ERROR),
any other thrown error to `{status: ERROR}` with the message, and a
successful completion to `{status: PROCESSED}` with the completion
output. -/
theorem processEntry_error_taxonomy (node : LLMRelabelNode) (entryOutput : String)
    (hn : node.relabelLLM ≠ RelabelOption.SkipRelabel) :
    (∀ e : ThrownError, e.isAPIError = true → e.status = some 429 →
       processEntry node entryOutput (CompletionOutcome.thrown e) =
         ProcessResult.pending e.message) ∧
    (∀ e : ThrownError, e.isAPIError = false ∨ e.status ≠ some 429 →
       processEntry node entryOutput (CompletionOutcome.thrown e) =
         ProcessResult.error e.message) ∧
    (∀ m, processEntry node entryOutput (CompletionOutcome.ok (some m)) =
       ProcessResult.processed m) := by
  refine ⟨?_, ?_, ?_⟩
  · intro e h1 h2
    unfold processEntry
    rw [if_neg hn]
    simp [h1, h2]
  · intro e h
    unfold processEntry
    rw [if_neg hn]
    rcases h with h | h <;> simp [h]
  · intro m
    unfold processEntry
    rw [if_neg hn]

/-- C6 witness: a 429 APIError goes to PENDING, a 500 error to ERROR, and a
successful completion to PROCESSED, on a non-skip node. -/
theorem processEntry_error_taxonomy_witness :
    processEntry relabelNode "orig" (CompletionOutcome.thrown rateLimitErr) =
      ProcessResult.pending "Rate limited" ∧
    processEntry relabelNode "orig" (CompletionOutcome.thrown serverErr) =
      ProcessResult.error "Internal error" ∧
    processEntry relabelNode "orig" (CompletionOutcome.ok (some "relabeled")) =
      ProcessResult.processed "relabeled" :=
  ⟨(processEntry_error_taxonomy relabelNode "orig" (by decide)).1
      rateLimitErr rfl rfl,
   (processEntry_error_taxonomy relabelNode "orig" (by decide)).2.1
      serverErr (Or.inr (by decide)),
   (processEntry_error_taxonomy relabelNode "orig" (by decide)).2.2 "relabeled"⟩

end OpenPipe
